import Mathlib

/-!
Verification of the incremental asset-build pipeline
(`model_pipeline/assemble_character.py`).

The Python program is shallowly embedded as follows.

* The filesystem is an oracle `FS` providing `os.path.exists`,
  `os.path.getmtime` and `os.listdir`.
* The Blender side effects (scene reset, model import, armature lookup,
  mounting-point setup, per-slot animation attachment, glTF export) are an
  oracle `Engine`: for each phase the oracle says whether the corresponding
  host-API calls raise an exception (and with which message), keyed by the
  file being processed.  This reflects that the transform engine is opaque
  to the staleness/orchestration core.
* Python dicts keyed by strings become association lists with
  first-occurrence lookup (`mfind`) and replace-or-append update
  (`minsert`); dicts written by this program never contain duplicate keys,
  so the two semantics agree.
* `os.path.getmtime` results are modelled as natural numbers: the code
  only ever compares them for equality.
* Uncaught Python exceptions are modelled with `Except String`: a
  `.error` value propagates out of `process_model` and aborts the batch,
  exactly like an uncaught exception aborts the script.
* `datetime.now().strftime(...)` is modelled by passing the formatted
  clock string `now` as an explicit input.
* `FORCE_REBUILD` is the configuration constant of the source
  (`False`); the staleness checker takes it as a parameter mirroring the
  global it reads.
-/

/-- First-occurrence lookup in an association list
(Python `d[k]` / `d.get(k)` for dicts). -/
def mfind {α : Type} : List (String × α) → String → Option α
  | [], _ => none
  | (a, b) :: rest, k => if a = k then some b else mfind rest k

/-- Replace-or-append update of an association list
(Python `d[k] = v` for dicts). -/
def minsert {α : Type} : List (String × α) → String → α → List (String × α)
  | [], k, v => [(k, v)]
  | (a, b) :: rest, k, v =>
      if a = k then (k, v) :: rest else (a, b) :: minsert rest k v

/-- The characters strictly before the last dot of a list, if it has a
dot (helper for `os.path.splitext`). -/
def beforeLastDot : List Char → Option (List Char)
  | [] => none
  | c :: rest =>
      match beforeLastDot rest with
      | some p => some (c :: p)
      | none => if c = '.' then some [] else none

/-- Python `os.path.splitext(s)[0]` for a plain filename (no directory
separators): the part before the last dot, except that a filename whose
every character before that dot is itself a dot (such as a bare
extension like `.fbx`) is returned whole. -/
def splitextBase (s : String) : String :=
  match beforeLastDot s.toList with
  | some p => if p.all (fun c => c = '.') then s else String.mk p
  | none => s

/-- Python `os.path.basename`: the part of a path after the last slash. -/
def pathBasename (s : String) : String :=
  String.mk (s.toList.foldl (fun acc c => if c = '/' then [] else acc.concat c) [])

/-- Filesystem oracle: the parts of `os` the pipeline reads. -/
structure FS where
  pathExists : String → Bool
  getmtime : String → Nat
  listdir : String → List String

/-- A per-model configuration record `{gender, extra_arm_angle}`
(`MODEL_CONFIG` values / `DEFAULT_CONFIG`). -/
structure Config where
  gender : String
  extra_arm_angle : Int
deriving DecidableEq

/-- One resolved animation slot of a snapshot:
`{"file": basename, "mtime": timestamp}`. -/
structure AnimEntry where
  file : String
  mtime : Nat
deriving DecidableEq

/-- The `current_state` dictionary built in phase 1 of `process_model`,
which is also the shape of a manifest entry (a stored snapshot). -/
structure Snapshot where
  build_date : String
  source_file : String
  source_mtime : Nat
  config : Config
  animations : List (String × AnimEntry)
deriving DecidableEq

/-- The build manifest: target name to stored snapshot. -/
abbrev Manifest := List (String × Snapshot)

/-- Per-target outcome of `process_model`: the spec's BuildResult.
The Python function returns `True` exactly for `Built`; `Skipped` and
`Failed` both return `False` but are distinguished by which path ran. -/
inductive BuildResult where
  | Built
  | Skipped
  | Failed
deriving DecidableEq

/-- Oracle for the Blender-side effects (the opaque transform engine).
Each field tells, for a given source filename (and slot), whether the
corresponding host-API region raises an exception, and which message. -/
structure Engine where
  /-- Exception raised by `clean_scene()` at the start of a build
  (uncaught in the source). -/
  cleanExc : String → Option String
  /-- Exception raised inside the `try` around the model import
  (caught in the source). -/
  importExc : String → Option String
  /-- Whether an armature object exists after import. -/
  hasArmature : String → Bool
  /-- Exception raised by the mode-set / mounting-point setup region
  between import and the animation loop (uncaught in the source). -/
  setupExc : String → Option String
  /-- Exception raised while attaching one animation slot, keyed by
  (source filename, slot name) (caught per slot in the source). -/
  attachExc : String → String → Option String
  /-- Exception raised by the glTF export call (uncaught in the source). -/
  exportExc : String → Option String
  /-- Exception raised by the final `clean_scene()` of the batch driver
  (uncaught in the source). -/
  finalCleanExc : Option String

/-- The `DEFAULT_CONFIG` record. -/
def DEFAULT_CONFIG : Config := { gender := "M", extra_arm_angle := 0 }

/-- The `MODEL_CONFIG` table. -/
def MODEL_CONFIG : List (String × Config) :=
  [("leib", { gender := "M", extra_arm_angle := 0 }),
   ("katinka", { gender := "F", extra_arm_angle := 0 }),
   ("marco", { gender := "M", extra_arm_angle := 7 })]

/-- The `ANIMATION_TARGETS` table: the fixed ordered slot table. -/
def ANIMATION_TARGETS : List (String × String) :=
  [("idle", "idle.fbx"),
   ("walk", "walk.fbx"),
   ("run", "run.fbx"),
   ("jump_up", "jump_up.fbx"),
   ("falling_idle", "falling_idle.fbx"),
   ("landing", "falling_to_idle.fbx"),
   ("walk_backwards", "walk_backwards.fbx"),
   ("strafe_left", "strafe_left.fbx"),
   ("strafe_right", "strafe_right.fbx"),
   ("glide", "glide.fbx"),
   ("cast", "cast.fbx")]

/-- The `FORCE_REBUILD` flag as configured in the source. -/
def FORCE_REBUILD : Bool := false

/-- The `SOURCE_DIR` path relative to the working root (`blend_dir`). -/
def SOURCE_DIR (root : String) : String := root ++ "/0_source_models"

/-- The `ANIM_DIR` path relative to the working root. -/
def ANIM_DIR (root : String) : String := root ++ "/1_anim_library"

/-- The `REPO_RAW_ASSETS_DIR` path: the export directory one level above the
working root (the `os.path.abspath` normalisation is not modelled; the
path is only ever used as an opaque key to an existence check). -/
def REPO_RAW_ASSETS_DIR (root : String) : String := root ++ "/../raw_assets"

/-- Python `get_file_timestamp`: modification time, `0` when the file is absent. -/
def get_file_timestamp (fs : FS) (filepath : String) : Nat :=
  if fs.pathExists filepath then fs.getmtime filepath else 0

/-- Python `find_animation_file`: gender-prefixed lookup with M-fallback for F. -/
def find_animation_file (fs : FS) (root : String) (base_filename gender : String) :
    Option String :=
  let path := ANIM_DIR root ++ "/" ++ (gender ++ "_" ++ base_filename)
  if fs.pathExists path then some path
  else if gender = "F" then
    let fallback_path := ANIM_DIR root ++ "/" ++ ("M_" ++ base_filename)
    if fs.pathExists fallback_path then some fallback_path else none
  else none

/-- The animation-resolution loop of phase 1 of `process_model`: for each
slot of the table, keep it only when a file resolves. -/
def resolveAnims (fs : FS) (root gender : String) :
    List (String × String) → List (String × AnimEntry)
  | [] => []
  | (target_name, base_filename) :: rest =>
      match find_animation_file fs root base_filename gender with
      | some p =>
          (target_name, { file := pathBasename p, mtime := get_file_timestamp fs p })
            :: resolveAnims fs root gender rest
      | none => resolveAnims fs root gender rest

/-- Phase 1 of `process_model`: the `current_state` snapshot, a function
of the filesystem, the static configuration and the formatted clock
string `now`. -/
def computeSnapshot (fs : FS) (root now filename : String) : Snapshot :=
  let model_name := splitextBase filename
  let config := (mfind MODEL_CONFIG model_name).getD DEFAULT_CONFIG
  { build_date := now
    source_file := filename
    source_mtime := get_file_timestamp fs (SOURCE_DIR root ++ "/" ++ filename)
    config := config
    animations := resolveAnims fs root config.gender ANIMATION_TARGETS }

/-- Python `needs_update`: the staleness evaluator. -/
def needs_update (force : Bool) (model_name : String) (current_state : Snapshot)
    (manifest : Manifest) : Bool :=
  if force then true
  else
    match mfind manifest model_name with
    | none => true
    | some last_build =>
        if current_state.source_mtime ≠ last_build.source_mtime then true
        else if current_state.config ≠ last_build.config then true
        else
          current_state.animations.any (fun p =>
            match mfind last_build.animations p.1 with
            | none => true
            | some last_anim => decide (p.2.mtime ≠ last_anim.mtime))

/-- The animation-attachment loop of phase 3 of `process_model`: each
slot's host-API exception is caught inside the loop, the slot is logged
as succeeded (`true`, the "Added" print) or warned (`false`, the
"Error processing" print), and the loop always continues. -/
def attachRun (eng : Engine) (filename : String) (anims : List (String × AnimEntry)) :
    List (String × Bool) :=
  anims.map (fun p => (p.1, (eng.attachExc filename p.1).isNone))

/-- Outcome of one `process_model` call: the result, the manifest after
the call, and the per-slot attachment log. -/
structure ProcOut where
  result : BuildResult
  manifest : Manifest
  attachLog : List (String × Bool)
deriving DecidableEq

/-- Python `process_model`: the per-target orchestrator.  A `.error` value is an
uncaught Python exception propagating out of the call. -/
def process_model (eng : Engine) (fs : FS) (root now filename : String)
    (manifest : Manifest) : Except String ProcOut :=
  let model_name := splitextBase filename
  let current_state := computeSnapshot fs root now filename
  if needs_update FORCE_REBUILD model_name current_state manifest then
    match eng.cleanExc filename with
    | some e => .error e
    | none =>
        match eng.importExc filename with
        | some _ => .ok ⟨.Failed, manifest, []⟩
        | none =>
            if eng.hasArmature filename then
              match eng.setupExc filename with
              | some e => .error e
              | none =>
                  let log := attachRun eng filename current_state.animations
                  if fs.pathExists (REPO_RAW_ASSETS_DIR root) then
                    match eng.exportExc filename with
                    | some e => .error e
                    | none =>
                        .ok ⟨.Built, minsert manifest model_name current_state, log⟩
                  else .ok ⟨.Failed, manifest, log⟩
            else .ok ⟨.Failed, manifest, []⟩
  else .ok ⟨.Skipped, manifest, []⟩

/-- ASCII lower-casing of one character (`str.lower()`; the accepted
extensions the driver filters on are ASCII). -/
def asciiLower (c : Char) : Char :=
  if 'A' ≤ c ∧ c ≤ 'Z' then Char.ofNat (c.toNat + 32) else c

/-- Python `str.lower()` of a filename. -/
def strLower (s : String) : String := String.mk (s.toList.map asciiLower)

/-- Python `str.endswith(suffix)`. -/
def strEndsWith (s suffix : String) : Bool := suffix.toList.isSuffixOf s.toList

/-- The candidate files of the batch: the source-directory listing
filtered to the accepted extensions. -/
def listFiles (fs : FS) (root : String) : List String :=
  (fs.listdir (SOURCE_DIR root)).filter
    (fun f => strEndsWith (strLower f) ".fbx" || strEndsWith (strLower f) ".glb")

/-- The per-file loop of the batch driver, threading the in-memory
manifest and collecting the per-target results in order. -/
def runFiles (eng : Engine) (fs : FS) (root now : String) :
    List String → Manifest → Except String (Manifest × List BuildResult)
  | [], manifest => .ok (manifest, [])
  | f :: rest, manifest =>
      match process_model eng fs root now f manifest with
      | .error e => .error e
      | .ok pr =>
          match runFiles eng fs root now rest pr.manifest with
          | .error e => .error e
          | .ok (m, rs) => .ok (m, pr.result :: rs)

/-- Outcome of one completed batch: final in-memory manifest, per-target
results, whether the manifest file was saved, and how many times the
manifest file was written. -/
structure BatchOut where
  manifest : Manifest
  results : List BuildResult
  saved : Bool
  writes : Nat
deriving DecidableEq

/-- The module-level batch driver: load the manifest (passed in as
`manifest0`), process every discovered file, run the final scene clean,
and save the manifest exactly when some target was built. -/
def runBatch (eng : Engine) (fs : FS) (root now : String) (manifest0 : Manifest) :
    Except String BatchOut :=
  if fs.pathExists (SOURCE_DIR root) then
    let files := listFiles fs root
    if files.isEmpty then .ok ⟨manifest0, [], false, 0⟩
    else
      match runFiles eng fs root now files manifest0 with
      | .error e => .error e
      | .ok (m, rs) =>
          match eng.finalCleanExc with
          | some e => .error e
          | none =>
              let updates_made := rs.any (fun r => r = .Built)
              .ok ⟨m, rs, updates_made, if updates_made then 1 else 0⟩
  else .ok ⟨manifest0, [], false, 0⟩

/-! ## Association-list lemmas -/

theorem mfind_minsert_self {α : Type} (l : List (String × α)) (k : String) (v : α) :
    mfind (minsert l k v) k = some v := by
  induction l with
  | nil => simp [minsert, mfind]
  | cons hd tl ih =>
      obtain ⟨a, b⟩ := hd
      by_cases h : a = k
      · simp [minsert, h, mfind]
      · simp [minsert, h, mfind, ih]

theorem mfind_minsert_ne {α : Type} (l : List (String × α)) (k n : String) (v : α)
    (h : n ≠ k) : mfind (minsert l k v) n = mfind l n := by
  have hkn : k ≠ n := fun hk => h hk.symm
  induction l with
  | nil => simp [minsert, mfind, hkn]
  | cons hd tl ih =>
      obtain ⟨a, b⟩ := hd
      by_cases ha : a = k
      · subst ha
        simp [minsert, mfind, hkn]
      · by_cases hn : a = n
        · simp [minsert, ha, mfind, hn, h]
        · simp [minsert, ha, mfind, hn, ih]

theorem mfind_isSome_minsert {α : Type} (l : List (String × α)) (k n : String) (v : α)
    (h : (mfind l n).isSome) : (mfind (minsert l k v) n).isSome := by
  by_cases hn : n = k
  · subst hn
    simp [mfind_minsert_self]
  · rwa [mfind_minsert_ne l k n v hn]

theorem mfind_eq_of_nodup_mem {α : Type} (l : List (String × α)) (k : String) (v : α)
    (hn : (l.map Prod.fst).Nodup) (hm : (k, v) ∈ l) : mfind l k = some v := by
  induction l with
  | nil => cases hm
  | cons hd tl ih =>
      obtain ⟨a, b⟩ := hd
      simp only [List.map_cons, List.nodup_cons] at hn
      rcases List.mem_cons.mp hm with h | h
      · cases h
        simp [mfind]
      · have hak : a ≠ k := by
          intro he
          exact hn.1 (he ▸ (List.mem_map.mpr ⟨(k, v), h, rfl⟩))
        simp [mfind, hak, ih hn.2 h]

theorem mfind_map_snd {α β : Type} (g : String → α → β) (l : List (String × α))
    (k : String) :
    mfind (l.map (fun q => (q.1, g q.1 q.2))) k = (mfind l k).map (g k) := by
  induction l with
  | nil => simp [mfind]
  | cons hd tl ih =>
      obtain ⟨a, b⟩ := hd
      by_cases h : a = k
      · subst h
        simp [mfind]
      · simp [mfind, h, ih]

/-! ## Staleness-evaluator lemmas -/

/-- The per-slot predicate of the staleness loop, spelled as a
proposition. -/
theorem anim_check_iff (last : Snapshot) (p : String × AnimEntry) :
    ((match mfind last.animations p.1 with
      | none => true
      | some last_anim => decide (p.2.mtime ≠ last_anim.mtime)) = true) ↔
      (mfind last.animations p.1 = none ∨
       ∃ la, mfind last.animations p.1 = some la ∧ p.2.mtime ≠ la.mtime) := by
  cases h : mfind last.animations p.1 <;> simp [h]

/-- The staleness evaluator reads the current snapshot only through its
source mtime, config and animations (never through `build_date` or
`source_file`). -/
theorem needs_update_congr_state (force : Bool) (name : String) (s s' : Snapshot)
    (m : Manifest) (h1 : s.source_mtime = s'.source_mtime) (h2 : s.config = s'.config)
    (h3 : s.animations = s'.animations) :
    needs_update force name s m = needs_update force name s' m := by
  unfold needs_update
  rw [h1, h2, h3]

/-- The staleness evaluator reads the manifest only through the lookup
at the target's own name. -/
theorem needs_update_congr_manifest (force : Bool) (name : String) (s : Snapshot)
    (m m' : Manifest) (h : mfind m name = mfind m' name) :
    needs_update force name s m = needs_update force name s m' := by
  unfold needs_update
  rw [h]

/-- If the force flag is off, the entry is present, source mtime and
config agree, and every slot of the current snapshot is found in the
entry with the same mtime, the evaluator reports not-stale — with no
condition at all on slots the entry has that the snapshot lacks, nor on
any stored filename. -/
theorem needs_update_eq_false (name : String) (cur last : Snapshot) (m : Manifest)
    (hm : mfind m name = some last)
    (h1 : cur.source_mtime = last.source_mtime)
    (h2 : cur.config = last.config)
    (h3 : ∀ p ∈ cur.animations,
        ∃ la, mfind last.animations p.1 = some la ∧ p.2.mtime = la.mtime) :
    needs_update false name cur m = false := by
  unfold needs_update
  simp only [Bool.false_eq_true, if_false, hm, h1, h2, ne_eq, not_true_eq_false,
    if_neg, ite_self]
  rw [List.any_eq_false]
  intro p hp
  obtain ⟨la, hla, hmt⟩ := h3 p hp
  simp [hla, hmt]

/-- The per-element predicate used by the staleness loop, as a plain
function (for stating lemmas about `List.any`). -/
theorem needs_update_eq_true_of_slot (force : Bool) (name : String) (cur last : Snapshot)
    (m : Manifest) (hm : mfind m name = some last) (p : String × AnimEntry)
    (hp : p ∈ cur.animations)
    (hbad : mfind last.animations p.1 = none ∨
      ∃ la, mfind last.animations p.1 = some la ∧ p.2.mtime ≠ la.mtime) :
    needs_update force name cur m = true := by
  unfold needs_update
  cases force with
  | true => simp
  | false =>
      simp only [Bool.false_eq_true, if_false, hm]
      by_cases h1 : cur.source_mtime = last.source_mtime
      · by_cases h2 : cur.config = last.config
        · rw [if_neg (by simp [h1]), if_neg (by simp [h2])]
          rw [List.any_eq_true]
          refine ⟨p, hp, ?_⟩
          rcases hbad with h | ⟨la, hla, hmt⟩
          · simp [h]
          · simp [hla, hmt]
        · rw [if_neg (by simp [h1]), if_pos (by simp [h2])]
      · rw [if_pos (by simp [h1])]

/-- C1: the staleness evaluator `needs_update` returns true if and only
if: the force-rebuild flag is set; or the target has no manifest entry;
or the snapshot's source modification time differs from the stored one;
or the snapshot's config differs structurally from the stored one; or
some animation slot of the snapshot is absent from the stored entry's
animations or differs from it in modification time.  In particular, when
none of these hold it returns false.  (The short-circuit order of the
source affects only which warning is printed, not the returned value.) -/
theorem claim_C1_needs_update_iff (force : Bool) (name : String) (cur : Snapshot)
    (m : Manifest) :
    needs_update force name cur m = true ↔
      (force = true ∨ mfind m name = none ∨
       ∃ last, mfind m name = some last ∧
         (cur.source_mtime ≠ last.source_mtime ∨ cur.config ≠ last.config ∨
          ∃ p ∈ cur.animations,
            (mfind last.animations p.1 = none ∨
             ∃ la, mfind last.animations p.1 = some la ∧ p.2.mtime ≠ la.mtime))) := by
  constructor
  · intro h
    cases force with
    | true => exact Or.inl rfl
    | false =>
        refine Or.inr ?_
        cases hm : mfind m name with
        | none => exact Or.inl rfl
        | some last =>
            refine Or.inr ⟨last, rfl, ?_⟩
            unfold needs_update at h
            simp only [Bool.false_eq_true, if_false, hm] at h
            by_cases h1 : cur.source_mtime = last.source_mtime
            · by_cases h2 : cur.config = last.config
              · rw [if_neg (by simp [h1]), if_neg (by simp [h2])] at h
                refine Or.inr (Or.inr ?_)
                obtain ⟨p, hp, hpred⟩ := List.any_eq_true.mp h
                refine ⟨p, hp, ?_⟩
                exact (anim_check_iff last p).mp hpred
              · exact Or.inr (Or.inl h2)
            · exact Or.inl h1
  · intro h
    rcases h with h | h | ⟨last, hm, hrest⟩
    · unfold needs_update
      simp [h]
    · unfold needs_update
      cases force with
      | true => simp
      | false => simp [h]
    · rcases hrest with h1 | h2 | ⟨p, hp, hbad⟩
      · unfold needs_update
        cases force with
        | true => simp
        | false =>
            simp only [Bool.false_eq_true, if_false, hm]
            rw [if_pos (by simp [h1])]
      · unfold needs_update
        cases force with
        | true => simp
        | false =>
            simp only [Bool.false_eq_true, if_false, hm]
            by_cases h1 : cur.source_mtime = last.source_mtime
            · rw [if_neg (by simp [h1]), if_pos (by simp [h2])]
            · rw [if_pos (by simp [h1])]
      · exact needs_update_eq_true_of_slot force name cur last m hm p hp hbad

/-- C6: the staleness check is asymmetric.  Claim theorem below; here a
concrete snapshot/entry pair used as its witness: the entry still
records slot `cast`, the current snapshot resolves no animations at
all. -/
def snapC6 : Snapshot :=
  { build_date := "2025-01-02 00:00:00", source_file := "leib.fbx",
    source_mtime := 5, config := DEFAULT_CONFIG, animations := [] }

/-- Stored entry for the C6 witness: same source mtime and config as
`snapC6`, but with a `cast` slot the snapshot no longer has. -/
def lastC6 : Snapshot :=
  { build_date := "2025-01-01 00:00:00", source_file := "leib.fbx",
    source_mtime := 5, config := DEFAULT_CONFIG,
    animations := [("cast", { file := "M_cast.fbx", mtime := 9 })] }

/-- C6: an animation slot present in the stored entry but absent from
the current snapshot never by itself makes `needs_update` return true:
whenever source mtime and config agree and every slot of the snapshot
matches the entry's mtime, the target is reported not stale, with no
condition on slots the entry has beyond the snapshot's. -/
theorem claim_C6_removal_not_stale (name : String) (cur last : Snapshot) (m : Manifest)
    (hm : mfind m name = some last)
    (h1 : cur.source_mtime = last.source_mtime)
    (h2 : cur.config = last.config)
    (h3 : ∀ p ∈ cur.animations,
        ∃ la, mfind last.animations p.1 = some la ∧ p.2.mtime = la.mtime) :
    needs_update FORCE_REBUILD name cur m = false :=
  needs_update_eq_false name cur last m hm h1 h2 h3

/-- Witness for C6: the stored entry of `leib` has slot `cast`, the
current snapshot has no slots at all, and the evaluator still says
not stale. -/
theorem claim_C6_witness :
    mfind lastC6.animations "cast" ≠ none ∧ mfind snapC6.animations "cast" = none ∧
      needs_update FORCE_REBUILD "leib" snapC6 [("leib", lastC6)] = false :=
  ⟨by decide, by decide,
   claim_C6_removal_not_stale "leib" snapC6 lastC6 [("leib", lastC6)]
     (by decide) rfl rfl (by simp [snapC6])⟩

/-- Rename every stored animation filename of a slot map by an arbitrary
function of the slot name and old name, keeping the mtimes. -/
def renameAnimFiles (g : String → String → String) (l : List (String × AnimEntry)) :
    List (String × AnimEntry) :=
  l.map (fun q => (q.1, { file := g q.1 q.2.file, mtime := q.2.mtime }))

/-- Rename every stored animation filename of a snapshot. -/
def snapRenameFiles (g : String → String → String) (s : Snapshot) : Snapshot :=
  { s with animations := renameAnimFiles g s.animations }

theorem mfind_renameAnimFiles (g : String → String → String)
    (l : List (String × AnimEntry)) (k : String) :
    mfind (renameAnimFiles g l) k =
      (mfind l k).map (fun a => { file := g k a.file, mtime := a.mtime }) := by
  induction l with
  | nil => simp [renameAnimFiles, mfind]
  | cons hd tl ih =>
      obtain ⟨a, b⟩ := hd
      by_cases h : a = k
      · subst h
        simp [renameAnimFiles, mfind]
      · simpa [renameAnimFiles, mfind, h] using ih

theorem mfind_mapSnap (h : Snapshot → Snapshot) (m : Manifest) (k : String) :
    mfind (m.map (fun q => (q.1, h q.2))) k = (mfind m k).map h := by
  induction m with
  | nil => simp [mfind]
  | cons hd tl ih =>
      obtain ⟨a, b⟩ := hd
      by_cases hk : a = k
      · subst hk
        simp [mfind]
      · simpa [mfind, hk] using ih

theorem list_any_congr {α : Type} (l : List α) (p q : α → Bool)
    (h : ∀ x ∈ l, p x = q x) : l.any p = l.any q := by
  induction l with
  | nil => rfl
  | cons hd tl ih =>
      simp only [List.any_cons, h hd (by simp)]
      rw [ih (fun x hx => h x (by simp [hx]))]

/-- C10: the per-slot staleness comparison reads only the stored
modification times, never the stored resolved filenames: renaming every
recorded filename, in the current snapshot and in every manifest entry,
by arbitrary functions leaves the evaluator's verdict unchanged.  In
particular (second conjunct, the scenario of the claim): a target whose
`walk` slot previously resolved to `M_walk.fbx` and now resolves to
`F_walk.fbx` with the same recorded mtime, with source mtime and config
unchanged, is reported not stale. -/
theorem claim_C10_file_identity_ignored :
    (∀ (force : Bool) (name : String) (cur : Snapshot) (m : Manifest)
       (g h : String → String → String),
       needs_update force name (snapRenameFiles g cur)
           (m.map (fun q => (q.1, snapRenameFiles h q.2))) =
         needs_update force name cur m) ∧
    needs_update FORCE_REBUILD "katinka"
        { build_date := "2025-01-02 00:00:00", source_file := "katinka.fbx",
          source_mtime := 3, config := { gender := "F", extra_arm_angle := 0 },
          animations := [("walk", { file := "F_walk.fbx", mtime := 5 })] }
        [("katinka",
          { build_date := "2025-01-01 00:00:00", source_file := "katinka.fbx",
            source_mtime := 3, config := { gender := "F", extra_arm_angle := 0 },
            animations := [("walk", { file := "M_walk.fbx", mtime := 5 })] })] = false := by
  constructor
  · intro force name cur m g h
    unfold needs_update
    cases force with
    | true => rfl
    | false =>
        simp only [Bool.false_eq_true, if_false]
        rw [mfind_mapSnap]
        cases hm : mfind m name with
        | none => rfl
        | some last =>
            simp only [Option.map_some']
            have hsm : (snapRenameFiles h last).source_mtime = last.source_mtime := rfl
            have hcf : (snapRenameFiles h last).config = last.config := rfl
            have hsm2 : (snapRenameFiles g cur).source_mtime = cur.source_mtime := rfl
            have hcf2 : (snapRenameFiles g cur).config = cur.config := rfl
            rw [hsm, hcf, hsm2, hcf2]
            by_cases h1 : cur.source_mtime = last.source_mtime
            · by_cases h2 : cur.config = last.config
              · rw [if_neg (by simp [h1]), if_neg (by simp [h2]),
                  if_neg (by simp [h1]), if_neg (by simp [h2])]
                show (renameAnimFiles g cur.animations).any _ = cur.animations.any _
                rw [renameAnimFiles, List.any_map]
                apply list_any_congr
                intro p _
                show (match mfind (snapRenameFiles h last).animations p.1 with
                  | none => true
                  | some la => decide (p.2.mtime ≠ la.mtime)) = _
                have : (snapRenameFiles h last).animations =
                    renameAnimFiles h last.animations := rfl
                rw [this, mfind_renameAnimFiles]
                cases mfind last.animations p.1 <;> rfl
              · rw [if_neg (by simp [h1]), if_pos (by simp [h2]),
                  if_neg (by simp [h1]), if_pos (by simp [h2])]
            · rw [if_pos (by simp [h1]), if_pos (by simp [h1])]
  · decide

/-! ## Resolution lemmas -/

theorem mfind_eq_none_of_not_mem_keys {α : Type} (l : List (String × α)) (k : String)
    (h : k ∉ l.map Prod.fst) : mfind l k = none := by
  induction l with
  | nil => rfl
  | cons hd tl ih =>
      obtain ⟨a, b⟩ := hd
      simp only [List.map_cons, List.mem_cons] at h
      push_neg at h
      have ha : a ≠ k := fun he => h.1 he.symm
      simp [mfind, ha, ih h.2]

theorem resolveAnims_keys_subset (fs : FS) (root gender : String)
    (l : List (String × String)) (x : String)
    (hx : x ∈ (resolveAnims fs root gender l).map Prod.fst) : x ∈ l.map Prod.fst := by
  induction l with
  | nil => simp [resolveAnims] at hx
  | cons hd tl ih =>
      obtain ⟨t, base⟩ := hd
      simp only [List.map_cons, List.mem_cons]
      unfold resolveAnims at hx
      cases hf : find_animation_file fs root base gender with
      | some p =>
          rw [hf] at hx
          simp only [List.map_cons, List.mem_cons] at hx
          rcases hx with hx | hx
          · exact Or.inl hx
          · exact Or.inr (ih hx)
      | none =>
          rw [hf] at hx
          exact Or.inr (ih hx)

theorem mfind_resolveAnims_none (fs : FS) (root gender : String)
    (l : List (String × String)) (k b : String)
    (hnd : (l.map Prod.fst).Nodup) (hmem : (k, b) ∈ l)
    (hf : find_animation_file fs root b gender = none) :
    mfind (resolveAnims fs root gender l) k = none := by
  induction l with
  | nil => cases hmem
  | cons hd tl ih =>
      obtain ⟨t, base⟩ := hd
      simp only [List.map_cons, List.nodup_cons] at hnd
      rcases List.mem_cons.mp hmem with he | he
      · rw [Prod.mk.injEq] at he
        obtain ⟨hk, hb⟩ := he
        subst hk
        subst hb
        unfold resolveAnims
        rw [hf]
        apply mfind_eq_none_of_not_mem_keys
        intro hx
        exact hnd.1 (resolveAnims_keys_subset fs root gender tl k hx)
      · have htk : t ≠ k := by
          intro he2
          exact hnd.1 (he2 ▸ (List.mem_map.mpr ⟨(k, b), he, rfl⟩))
        unfold resolveAnims
        cases hft : find_animation_file fs root base gender with
        | some p => simp [mfind, htk, ih hnd.2 he]
        | none => exact ih hnd.2 he

/-- C5: animation-slot resolution.  First conjunct: for gender `M`, only
`M_{base}` is tried, with no fallback.  Second conjunct: for gender `F`,
`F_{base}` is tried first and `M_{base}` is the fallback.  Third
conjunct: a slot of the fixed table whose lookup resolves to nothing is
omitted from the snapshot's animations mapping entirely. -/
theorem claim_C5_resolution (fs : FS) (root base : String) :
    (find_animation_file fs root base "M" =
      (if fs.pathExists (ANIM_DIR root ++ "/" ++ ("M_" ++ base)) then
        some (ANIM_DIR root ++ "/" ++ ("M_" ++ base))
      else none)) ∧
    (find_animation_file fs root base "F" =
      (if fs.pathExists (ANIM_DIR root ++ "/" ++ ("F_" ++ base)) then
        some (ANIM_DIR root ++ "/" ++ ("F_" ++ base))
      else if fs.pathExists (ANIM_DIR root ++ "/" ++ ("M_" ++ base)) then
        some (ANIM_DIR root ++ "/" ++ ("M_" ++ base))
      else none)) ∧
    (∀ now filename slot b2, (slot, b2) ∈ ANIMATION_TARGETS →
      find_animation_file fs root b2
          ((mfind MODEL_CONFIG (splitextBase filename)).getD DEFAULT_CONFIG).gender =
        none →
      mfind (computeSnapshot fs root now filename).animations slot = none) := by
  refine ⟨?_, ?_, ?_⟩
  · unfold find_animation_file
    have : ("M" : String) ≠ "F" := by decide
    simp [this]
  · unfold find_animation_file
    simp
  · intro now filename slot b2 hmem hnone
    show mfind (resolveAnims fs root
      ((mfind MODEL_CONFIG (splitextBase filename)).getD DEFAULT_CONFIG).gender
      ANIMATION_TARGETS) slot = none
    exact mfind_resolveAnims_none fs root _ ANIMATION_TARGETS slot b2
      (by decide) hmem hnone

/-- Animation library for the C5 witness: only `M_walk.fbx` exists. -/
def fsC5 : FS :=
  { pathExists := fun p => p = "r/1_anim_library/M_walk.fbx"
    getmtime := fun _ => 7
    listdir := fun _ => [] }

/-- Witness for C5: target `katinka` is configured gender `F`; with only
`M_walk.fbx` present, slot `walk` falls back to the `M` file, and slot
`cast`, resolving to nothing, is absent from the snapshot. -/
theorem claim_C5_witness :
    find_animation_file fsC5 "r" "walk.fbx" "F" = some "r/1_anim_library/M_walk.fbx" ∧
      mfind (computeSnapshot fsC5 "r" "t" "katinka.fbx").animations "cast" = none := by
  constructor
  · rw [(claim_C5_resolution fsC5 "r" "walk.fbx").2.1]
    decide
  · exact (claim_C5_resolution fsC5 "r" "cast.fbx").2.2 "t" "katinka.fbx" "cast"
      "cast.fbx" (by decide) (by decide)

/-! ## Concrete fixtures -/

/-- A filesystem whose source directory holds two models with the same
stem, `x.fbx` (mtime 1) and `x.glb` (mtime 2); export directory present;
empty animation library. -/
def fs0 : FS :=
  { pathExists := fun p =>
      p = "r/0_source_models" || p = "r/../raw_assets" ||
      p = "r/0_source_models/x.fbx" || p = "r/0_source_models/x.glb"
    getmtime := fun p =>
      if p = "r/0_source_models/x.fbx" then 1
      else if p = "r/0_source_models/x.glb" then 2 else 0
    listdir := fun p => if p = "r/0_source_models" then ["x.fbx", "x.glb"] else [] }

/-- A transform engine that always succeeds. -/
def eng0 : Engine :=
  { cleanExc := fun _ => none
    importExc := fun _ => none
    hasArmature := fun _ => true
    setupExc := fun _ => none
    attachExc := fun _ _ => none
    exportExc := fun _ => none
    finalCleanExc := none }

/-- An engine whose glTF export call raises for `x.fbx`. -/
def engExportFail : Engine :=
  { eng0 with exportExc := fun f => if f = "x.fbx" then some "boom" else none }

/-- An engine whose model import raises and whose animation attachments
all raise; everything outside the two `try` blocks is clean. -/
def engImportFail : Engine :=
  { eng0 with
    importExc := fun _ => some "import failed"
    attachExc := fun _ _ => some "attach failed" }

/-- Filesystem for the C4 scenario: one model `x.fbx`, an animation
library holding only `M_walk.fbx`, export directory present. -/
def fsC4 : FS :=
  { pathExists := fun p =>
      p = "r/0_source_models" || p = "r/../raw_assets" ||
      p = "r/0_source_models/x.fbx" || p = "r/1_anim_library/M_walk.fbx"
    getmtime := fun p =>
      if p = "r/0_source_models/x.fbx" then 1
      else if p = "r/1_anim_library/M_walk.fbx" then 4 else 0
    listdir := fun p => if p = "r/0_source_models" then ["x.fbx"] else [] }

/-- An engine that raises while attaching slot `walk` of `x.fbx` and is
otherwise clean. -/
def engAttachFail : Engine :=
  { eng0 with
    attachExc := fun f s => if f = "x.fbx" ∧ s = "walk" then some "ouch" else none }

/-! ## C7: snapshot determinism -/

/-- C7 counterexample: the claim that resolving a snapshot twice with no
filesystem change yields snapshots with every field equal is false,
because `build_date` records the wall clock: two calls whose formatted
clock strings differ give different snapshots. -/
theorem claim_C7_counterexample :
    computeSnapshot fs0 "r" "2025-01-01 00:00:00" "x.fbx" ≠
      computeSnapshot fs0 "r" "2025-01-01 00:00:01" "x.fbx" := by
  decide

/-- C7 amended: snapshot resolution is side-effect-free and, apart from
the informational `build_date` field, deterministic: for a fixed
filesystem, two resolutions agree on the source file, the source mtime,
the config and the animations mapping — every field except
`build_date`. -/
theorem claim_C7_deterministic_except_build_date (fs : FS)
    (root now1 now2 filename : String) :
    (computeSnapshot fs root now1 filename).source_file =
        (computeSnapshot fs root now2 filename).source_file ∧
      (computeSnapshot fs root now1 filename).source_mtime =
        (computeSnapshot fs root now2 filename).source_mtime ∧
      (computeSnapshot fs root now1 filename).config =
        (computeSnapshot fs root now2 filename).config ∧
      (computeSnapshot fs root now1 filename).animations =
        (computeSnapshot fs root now2 filename).animations :=
  ⟨rfl, rfl, rfl, rfl⟩

/-! ## C3: exception isolation -/

/-- C3 counterexample: an exception raised during the export step of the
transform-engine phase is not caught: the per-target call propagates it
(first conjunct) and the batch driver aborts instead of continuing
(second conjunct). -/
theorem claim_C3_counterexample :
    process_model engExportFail fs0 "r" "t" "x.fbx" [] = .error "boom" ∧
      runBatch engExportFail fs0 "r" "t" [] = .error "boom" := by
  constructor
  · rfl
  · rfl

/-- C3 amended: only the model-import step and the per-slot animation
attachments are guarded by handlers; their exceptions are caught inside
the per-target build and never propagate.  Whenever the unguarded
regions (scene reset, armature setup, export) raise nothing, the
per-target call returns a result for any behaviour of the import and
attachment steps.  Exceptions in the unguarded regions do propagate
(see the counterexample). -/
theorem claim_C3_import_attach_caught (eng : Engine) (fs : FS)
    (root now filename : String) (manifest : Manifest)
    (h1 : eng.cleanExc filename = none)
    (h2 : eng.setupExc filename = none)
    (h3 : eng.exportExc filename = none) :
    ∃ pr, process_model eng fs root now filename manifest = .ok pr := by
  unfold process_model
  by_cases hnu : needs_update FORCE_REBUILD (splitextBase filename)
      (computeSnapshot fs root now filename) manifest
  · rw [if_pos hnu, h1]
    cases him : eng.importExc filename with
    | some e => exact ⟨_, rfl⟩
    | none =>
        cases harm : eng.hasArmature filename with
        | false => simp [harm]
        | true =>
            rw [if_pos rfl, h2]
            by_cases hrepo : fs.pathExists (REPO_RAW_ASSETS_DIR root)
            · rw [if_pos hrepo, h3]
              exact ⟨_, rfl⟩
            · rw [if_neg hrepo]
              exact ⟨_, rfl⟩
  · rw [if_neg hnu]
    exact ⟨_, rfl⟩

/-- Witness for the amended C3: an engine whose import raises and whose
every animation attachment raises still yields a per-target result (no
propagation). -/
theorem claim_C3_witness :
    ∃ pr, process_model engImportFail fs0 "r" "t" "x.fbx" [] = .ok pr :=
  claim_C3_import_attach_caught engImportFail fs0 "r" "t" "x.fbx" [] rfl rfl rfl

/-! ## C4: attachment failure handling -/

/-- C4 counterexample: an exception raised while attaching a resolved
animation does not make the target's outcome Failed.  Concretely, the
engine raises on slot `walk` of `x.fbx`, yet the build is reported
Built, the manifest entry is written, and the slot failure is only
logged as a warning. -/
theorem claim_C4_counterexample :
    engAttachFail.attachExc "x.fbx" "walk" = some "ouch" ∧
      process_model engAttachFail fsC4 "r" "t" "x.fbx" [] =
        .ok ⟨.Built, [("x", computeSnapshot fsC4 "r" "t" "x.fbx")],
          [("walk", false)]⟩ := by
  constructor
  · rfl
  · rfl

/-- C4 amended: an exception during the attachment of one animation is
caught inside the per-slot loop and recorded as a warning in the
attachment log; the build then proceeds, and when the remaining phases
succeed the target is reported Built and its manifest entry is updated —
for every behaviour of the attachment step, failures included. -/
theorem claim_C4_attach_failure_still_built (eng : Engine) (fs : FS)
    (root now filename : String) (manifest : Manifest)
    (hnu : needs_update FORCE_REBUILD (splitextBase filename)
      (computeSnapshot fs root now filename) manifest = true)
    (h1 : eng.cleanExc filename = none)
    (h2 : eng.importExc filename = none)
    (h3 : eng.hasArmature filename = true)
    (h4 : eng.setupExc filename = none)
    (h5 : fs.pathExists (REPO_RAW_ASSETS_DIR root) = true)
    (h6 : eng.exportExc filename = none) :
    process_model eng fs root now filename manifest =
      .ok ⟨.Built,
        minsert manifest (splitextBase filename) (computeSnapshot fs root now filename),
        attachRun eng filename (computeSnapshot fs root now filename).animations⟩ := by
  unfold process_model
  rw [if_pos hnu, h1, h2, h3, if_pos rfl, h4, h5, if_pos rfl, h6]

/-- Witness for the amended C4: the attach-failing engine of the
counterexample, run through the amended theorem, is reported Built with
the failure logged. -/
theorem claim_C4_witness :
    process_model engAttachFail fsC4 "r" "t" "x.fbx" [] =
      .ok ⟨.Built, minsert [] (splitextBase "x.fbx") (computeSnapshot fsC4 "r" "t" "x.fbx"),
        attachRun engAttachFail "x.fbx" (computeSnapshot fsC4 "r" "t" "x.fbx").animations⟩ :=
  claim_C4_attach_failure_still_built engAttachFail fsC4 "r" "t" "x.fbx" []
    (by decide) rfl rfl rfl rfl (by decide) rfl

/-! ## Structure of a completed per-target call -/

/-- A per-target call that completes does exactly one of three things:
skips with the manifest untouched (when not stale), fails with the
manifest untouched (when stale), or builds and overwrites exactly its
own manifest entry with the fresh snapshot (when stale). -/
theorem pm_cases (eng : Engine) (fs : FS) (root now filename : String)
    (manifest : Manifest) (pr : ProcOut)
    (h : process_model eng fs root now filename manifest = .ok pr) :
    (pr.result = .Skipped ∧ pr.manifest = manifest ∧
      needs_update FORCE_REBUILD (splitextBase filename)
        (computeSnapshot fs root now filename) manifest = false) ∨
    (pr.result = .Failed ∧ pr.manifest = manifest ∧
      needs_update FORCE_REBUILD (splitextBase filename)
        (computeSnapshot fs root now filename) manifest = true) ∨
    (pr.result = .Built ∧
      pr.manifest = minsert manifest (splitextBase filename)
        (computeSnapshot fs root now filename) ∧
      needs_update FORCE_REBUILD (splitextBase filename)
        (computeSnapshot fs root now filename) manifest = true) := by
  unfold process_model at h
  by_cases hnu : needs_update FORCE_REBUILD (splitextBase filename)
      (computeSnapshot fs root now filename) manifest
  · rw [if_pos hnu] at h
    cases hc : eng.cleanExc filename with
    | some e => rw [hc] at h; simp at h
    | none =>
        rw [hc] at h
        cases hi : eng.importExc filename with
        | some e =>
            rw [hi] at h
            cases h
            exact Or.inr (Or.inl ⟨rfl, rfl, hnu⟩)
        | none =>
            rw [hi] at h
            cases harm : eng.hasArmature filename with
            | false =>
                rw [harm] at h
                simp only [Bool.false_eq_true, if_false] at h
                cases h
                exact Or.inr (Or.inl ⟨rfl, rfl, hnu⟩)
            | true =>
                rw [harm] at h
                simp only [if_true] at h
                cases hs : eng.setupExc filename with
                | some e => rw [hs] at h; simp at h
                | none =>
                    rw [hs] at h
                    by_cases hrepo : fs.pathExists (REPO_RAW_ASSETS_DIR root)
                    · rw [if_pos hrepo] at h
                      cases hx : eng.exportExc filename with
                      | some e => rw [hx] at h; simp at h
                      | none =>
                          rw [hx] at h
                          cases h
                          exact Or.inr (Or.inr ⟨rfl, rfl, hnu⟩)
                    · rw [if_neg hrepo] at h
                      cases h
                      exact Or.inr (Or.inl ⟨rfl, rfl, hnu⟩)
  · rw [if_neg hnu] at h
    cases h
    exact Or.inl ⟨rfl, rfl, by simpa using hnu⟩

/-- A completed per-target call that did not build leaves the manifest
exactly as it was. -/
theorem pm_manifest_of_not_built (eng : Engine) (fs : FS) (root now filename : String)
    (manifest : Manifest) (pr : ProcOut)
    (h : process_model eng fs root now filename manifest = .ok pr)
    (hb : pr.result ≠ .Built) : pr.manifest = manifest := by
  rcases pm_cases eng fs root now filename manifest pr h with
    ⟨_, hm, _⟩ | ⟨_, hm, _⟩ | ⟨hr, _, _⟩
  · exact hm
  · exact hm
  · exact absurd hr hb

/-- A completed per-target call that built overwrote exactly its own
manifest entry with the fresh snapshot. -/
theorem pm_manifest_of_built (eng : Engine) (fs : FS) (root now filename : String)
    (manifest : Manifest) (pr : ProcOut)
    (h : process_model eng fs root now filename manifest = .ok pr)
    (hb : pr.result = .Built) :
    pr.manifest = minsert manifest (splitextBase filename)
      (computeSnapshot fs root now filename) := by
  rcases pm_cases eng fs root now filename manifest pr h with
    ⟨hr, _, _⟩ | ⟨hr, _, _⟩ | ⟨_, hm, _⟩
  · rw [hr] at hb; cases hb
  · rw [hr] at hb; cases hb
  · exact hm

/-! ## Batch-loop lemmas -/

theorem rf_length (eng : Engine) (fs : FS) (root now : String) (files : List String)
    (m mf : Manifest) (rs : List BuildResult)
    (h : runFiles eng fs root now files m = .ok (mf, rs)) : rs.length = files.length := by
  induction files generalizing m rs with
  | nil =>
      unfold runFiles at h
      cases h
      rfl
  | cons f rest ih =>
      unfold runFiles at h
      cases hp : process_model eng fs root now f m with
      | error e => rw [hp] at h; simp at h
      | ok pr =>
          rw [hp] at h
          dsimp only at h
          cases hr : runFiles eng fs root now rest pr.manifest with
          | error e => rw [hr] at h; simp at h
          | ok q =>
              obtain ⟨m2, rs2⟩ := q
              rw [hr] at h
              dsimp only at h
              cases h
              simp [ih pr.manifest rs2 hr]

/-- The batch loop changes the manifest only at keys named by files it
processed. -/
theorem rf_preserves_other_keys (eng : Engine) (fs : FS) (root now : String)
    (files : List String) (m mf : Manifest) (rs : List BuildResult) (n : String)
    (h : runFiles eng fs root now files m = .ok (mf, rs))
    (hn : n ∉ files.map splitextBase) : mfind mf n = mfind m n := by
  induction files generalizing m rs with
  | nil =>
      unfold runFiles at h
      cases h
      rfl
  | cons f rest ih =>
      simp only [List.map_cons, List.mem_cons] at hn
      push_neg at hn
      unfold runFiles at h
      cases hp : process_model eng fs root now f m with
      | error e => rw [hp] at h; simp at h
      | ok pr =>
          rw [hp] at h
          dsimp only at h
          cases hr : runFiles eng fs root now rest pr.manifest with
          | error e => rw [hr] at h; simp at h
          | ok q =>
              obtain ⟨m2, rs2⟩ := q
              rw [hr] at h
              dsimp only at h
              cases h
              have hstep : mfind pr.manifest n = mfind m n := by
                rcases pm_cases eng fs root now f m pr hp with
                  ⟨_, hm, _⟩ | ⟨_, hm, _⟩ | ⟨_, hm, _⟩
                · rw [hm]
                · rw [hm]
                · rw [hm]
                  exact mfind_minsert_ne m (splitextBase f) n
                    (computeSnapshot fs root now f) hn.1
              rw [ih pr.manifest rs2 hr hn.2, hstep]

/-- A key with an entry keeps an entry across the batch loop. -/
theorem rf_isSome_mono (eng : Engine) (fs : FS) (root now : String)
    (files : List String) (m mf : Manifest) (rs : List BuildResult) (n : String)
    (h : runFiles eng fs root now files m = .ok (mf, rs))
    (hs : (mfind m n).isSome) : (mfind mf n).isSome := by
  induction files generalizing m rs with
  | nil =>
      unfold runFiles at h
      cases h
      exact hs
  | cons f rest ih =>
      unfold runFiles at h
      cases hp : process_model eng fs root now f m with
      | error e => rw [hp] at h; simp at h
      | ok pr =>
          rw [hp] at h
          dsimp only at h
          cases hr : runFiles eng fs root now rest pr.manifest with
          | error e => rw [hr] at h; simp at h
          | ok q =>
              obtain ⟨m2, rs2⟩ := q
              rw [hr] at h
              dsimp only at h
              cases h
              apply ih pr.manifest rs2 hr
              rcases pm_cases eng fs root now f m pr hp with
                ⟨_, hm, _⟩ | ⟨_, hm, _⟩ | ⟨_, hm, _⟩
              · rwa [hm]
              · rwa [hm]
              · rw [hm]
                exact mfind_isSome_minsert m (splitextBase f) n _ hs

/-- Any manifest change made by the batch loop is accounted for by a
target of the batch that was Built and has that key as its model name. -/
theorem rf_changed_key_has_built (eng : Engine) (fs : FS) (root now : String)
    (files : List String) (m mf : Manifest) (rs : List BuildResult) (n : String)
    (h : runFiles eng fs root now files m = .ok (mf, rs))
    (hne : mfind mf n ≠ mfind m n) :
    ∃ p ∈ files.zip rs, p.2 = .Built ∧ splitextBase p.1 = n := by
  induction files generalizing m rs with
  | nil =>
      unfold runFiles at h
      cases h
      exact absurd rfl hne
  | cons f rest ih =>
      unfold runFiles at h
      cases hp : process_model eng fs root now f m with
      | error e => rw [hp] at h; simp at h
      | ok pr =>
          rw [hp] at h
          dsimp only at h
          cases hr : runFiles eng fs root now rest pr.manifest with
          | error e => rw [hr] at h; simp at h
          | ok q =>
              obtain ⟨m2, rs2⟩ := q
              rw [hr] at h
              dsimp only at h
              cases h
              by_cases hstep : mfind pr.manifest n = mfind m n
              · have : mfind mf n ≠ mfind pr.manifest n := by
                  rw [hstep]; exact hne
                obtain ⟨p, hpm, hb⟩ := ih pr.manifest rs2 hr this
                exact ⟨p, by simp [List.mem_cons, hpm], hb⟩
              · rcases pm_cases eng fs root now f m pr hp with
                  ⟨_, hm, _⟩ | ⟨_, hm, _⟩ | ⟨hres, hm, _⟩
                · rw [hm] at hstep; exact absurd rfl hstep
                · rw [hm] at hstep; exact absurd rfl hstep
                · have hn : n = splitextBase f := by
                    by_contra hnn
                    rw [hm, mfind_minsert_ne m (splitextBase f) n _ hnn] at hstep
                    exact absurd rfl hstep
                  exact ⟨(f, pr.result), by simp [List.zip_cons_cons], hres, hn.symm⟩

/-- A Built target of the batch ends the batch with an entry present
under its model name. -/
theorem rf_built_entry_present (eng : Engine) (fs : FS) (root now : String)
    (files : List String) (m mf : Manifest) (rs : List BuildResult)
    (h : runFiles eng fs root now files m = .ok (mf, rs)) :
    ∀ p ∈ files.zip rs, p.2 = .Built → (mfind mf (splitextBase p.1)).isSome := by
  induction files generalizing m rs with
  | nil =>
      unfold runFiles at h
      cases h
      intro p hp
      simp at hp
  | cons f rest ih =>
      unfold runFiles at h
      cases hp : process_model eng fs root now f m with
      | error e => rw [hp] at h; simp at h
      | ok pr =>
          rw [hp] at h
          dsimp only at h
          cases hr : runFiles eng fs root now rest pr.manifest with
          | error e => rw [hr] at h; simp at h
          | ok q =>
              obtain ⟨m2, rs2⟩ := q
              rw [hr] at h
              dsimp only at h
              cases h
              intro p hpmem hbuilt
              rw [List.zip_cons_cons, List.mem_cons] at hpmem
              rcases hpmem with he | he
              · subst he
                apply rf_isSome_mono eng fs root now rest pr.manifest mf rs2 _ hr
                rw [pm_manifest_of_built eng fs root now f m pr hp hbuilt]
                rw [mfind_minsert_self]
                rfl
              · exact ih pr.manifest rs2 hr p he hbuilt

/-- If no target of the batch was Built, the in-memory manifest at the
end of the loop is exactly the loaded one. -/
theorem rf_no_built_manifest_unchanged (eng : Engine) (fs : FS) (root now : String)
    (files : List String) (m mf : Manifest) (rs : List BuildResult)
    (h : runFiles eng fs root now files m = .ok (mf, rs))
    (hnb : BuildResult.Built ∉ rs) : mf = m := by
  induction files generalizing m rs with
  | nil =>
      unfold runFiles at h
      cases h
      rfl
  | cons f rest ih =>
      unfold runFiles at h
      cases hp : process_model eng fs root now f m with
      | error e => rw [hp] at h; simp at h
      | ok pr =>
          rw [hp] at h
          dsimp only at h
          cases hr : runFiles eng fs root now rest pr.manifest with
          | error e => rw [hr] at h; simp at h
          | ok q =>
              obtain ⟨m2, rs2⟩ := q
              rw [hr] at h
              dsimp only at h
              cases h
              simp only [List.mem_cons] at hnb
              push_neg at hnb
              have h1 : pr.manifest = m :=
                pm_manifest_of_not_built eng fs root now f m pr hp
                  (fun hb => hnb.1 hb.symm)
              rw [← h1]
              exact ih pr.manifest rs2 hr hnb.2

/-! ## C2: manifest preservation on failure -/

/-- Filesystem with two independent models `a.fbx` and `b.fbx`. -/
def fsC2 : FS :=
  { pathExists := fun p =>
      p = "r/0_source_models" || p = "r/../raw_assets" ||
      p = "r/0_source_models/a.fbx" || p = "r/0_source_models/b.fbx"
    getmtime := fun p =>
      if p = "r/0_source_models/a.fbx" then 3
      else if p = "r/0_source_models/b.fbx" then 4 else 0
    listdir := fun p => if p = "r/0_source_models" then ["a.fbx", "b.fbx"] else [] }

/-- An engine whose model import fails for `a.fbx` only. -/
def engC2 : Engine :=
  { eng0 with importExc := fun f => if f = "a.fbx" then some "cannot import" else none }

/-- C2: a target whose build does not succeed leaves its manifest
mapping exactly as it was, an entry is overwritten only by that target's
own successful build, and one target's failure does not prevent another
target's success in the same batch from being committed.  First
conjunct: per-target — a completed call that is not Built returns the
manifest untouched, and a Built call returns it with exactly its own
entry overwritten.  Second conjunct: batch-level — any key whose mapping
changed across the loop belongs to some Built target, every Built target
ends the batch with an entry present under its name, and the loop
produces a result for every file (failures do not stop the batch). -/
theorem claim_C2_manifest_on_failure :
    (∀ (eng : Engine) (fs : FS) (root now filename : String) (manifest : Manifest)
       (pr : ProcOut),
       process_model eng fs root now filename manifest = .ok pr →
       (pr.result ≠ .Built → pr.manifest = manifest) ∧
       (pr.result = .Built →
         pr.manifest = minsert manifest (splitextBase filename)
           (computeSnapshot fs root now filename))) ∧
    (∀ (eng : Engine) (fs : FS) (root now : String) (files : List String)
       (m mf : Manifest) (rs : List BuildResult),
       runFiles eng fs root now files m = .ok (mf, rs) →
       (∀ n, mfind mf n ≠ mfind m n →
         ∃ p ∈ files.zip rs, p.2 = .Built ∧ splitextBase p.1 = n) ∧
       (∀ p ∈ files.zip rs, p.2 = .Built → (mfind mf (splitextBase p.1)).isSome) ∧
       rs.length = files.length) := by
  constructor
  · intro eng fs root now filename manifest pr h
    exact ⟨pm_manifest_of_not_built eng fs root now filename manifest pr h,
      pm_manifest_of_built eng fs root now filename manifest pr h⟩
  · intro eng fs root now files m mf rs h
    exact ⟨fun n hn => rf_changed_key_has_built eng fs root now files m mf rs n h hn,
      rf_built_entry_present eng fs root now files m mf rs h,
      rf_length eng fs root now files m mf rs h⟩

/-- Witness for C2: in a batch where the engine fails importing `a.fbx`
and succeeds on `b.fbx`, the failed call hands back the untouched (empty)
manifest, and the batch ends with an entry present for `b`. -/
theorem claim_C2_witness :
    ((⟨.Failed, [], []⟩ : ProcOut).manifest = ([] : Manifest)) ∧
      (mfind [("b", computeSnapshot fsC2 "r" "t" "b.fbx")]
        (splitextBase "b.fbx")).isSome := by
  constructor
  · exact (claim_C2_manifest_on_failure.1 engC2 fsC2 "r" "t" "a.fbx" []
      ⟨.Failed, [], []⟩ (by rfl)).1 (by decide)
  · exact (claim_C2_manifest_on_failure.2 engC2 fsC2 "r" "t" ["a.fbx", "b.fbx"] []
      [("b", computeSnapshot fsC2 "r" "t" "b.fbx")] [.Failed, .Built] (by rfl)).2.1
      ("b.fbx", .Built) (by decide) rfl

/-! ## C8: manifest persistence policy -/

/-- C8: a completed batch writes the manifest file at most once, and
writes it exactly when at least one target of the batch returned Built;
when every target is skipped or failed (or there are no targets), the
manifest file is never written. -/
theorem claim_C8_save_iff_built (eng : Engine) (fs : FS) (root now : String)
    (m0 : Manifest) (out : BatchOut)
    (h : runBatch eng fs root now m0 = .ok out) :
    out.writes ≤ 1 ∧ (out.writes = 1 ↔ .Built ∈ out.results) ∧
      (out.saved = true ↔ .Built ∈ out.results) := by
  unfold runBatch at h
  by_cases hsd : fs.pathExists (SOURCE_DIR root)
  · rw [if_pos hsd] at h
    dsimp only at h
    by_cases hemp : (listFiles fs root).isEmpty
    · rw [if_pos hemp] at h
      cases h
      simp
    · rw [if_neg hemp] at h
      cases hr : runFiles eng fs root now (listFiles fs root) m0 with
      | error e => rw [hr] at h; simp at h
      | ok q =>
          obtain ⟨m, rs⟩ := q
          rw [hr] at h
          dsimp only at h
          cases hc : eng.finalCleanExc with
          | some e => rw [hc] at h; simp at h
          | none =>
              rw [hc] at h
              dsimp only at h
              cases h
              have hmem : (rs.any fun r => r = BuildResult.Built) = true ↔
                  BuildResult.Built ∈ rs := by
                rw [List.any_eq_true]
                constructor
                · rintro ⟨x, hx, he⟩
                  simp only [decide_eq_true_eq] at he
                  exact he ▸ hx
                · intro hx
                  exact ⟨.Built, hx, by simp⟩
              by_cases hb : (rs.any fun r => r = BuildResult.Built) = true
              · simp only [hb]
                simp only [hmem.mp hb]
                simp
              · have hb' : (rs.any fun r => r = BuildResult.Built) = false := by
                  cases hx : (rs.any fun r => r = BuildResult.Built) with
                  | true => exact absurd hx hb
                  | false => rfl
                simp only [hb']
                have : BuildResult.Built ∉ rs := fun hx => hb (hmem.mpr hx)
                simp [this]
  · rw [if_neg hsd] at h
    cases h
    simp

/-- Witness for C8: the mixed batch of `fsC2`/`engC2` (one Failed, one
Built) saves the manifest and writes it exactly once. -/
theorem claim_C8_witness :
    (⟨[("b", computeSnapshot fsC2 "r" "t" "b.fbx")], [.Failed, .Built], true, 1⟩
        : BatchOut).writes ≤ 1 ∧
      ((⟨[("b", computeSnapshot fsC2 "r" "t" "b.fbx")], [.Failed, .Built], true, 1⟩
        : BatchOut).writes = 1 ↔
        .Built ∈ (⟨[("b", computeSnapshot fsC2 "r" "t" "b.fbx")], [.Failed, .Built], true, 1⟩
          : BatchOut).results) ∧
      ((⟨[("b", computeSnapshot fsC2 "r" "t" "b.fbx")], [.Failed, .Built], true, 1⟩
        : BatchOut).saved = true ↔
        .Built ∈ (⟨[("b", computeSnapshot fsC2 "r" "t" "b.fbx")], [.Failed, .Built], true, 1⟩
          : BatchOut).results) :=
  claim_C8_save_iff_built engC2 fsC2 "r" "t" []
    ⟨[("b", computeSnapshot fsC2 "r" "t" "b.fbx")], [.Failed, .Built], true, 1⟩ (by rfl)

/-! ## Stability of per-target outcomes across identical filesystems -/

/-- A target whose snapshot is judged not stale is skipped with the
manifest untouched. -/
theorem pm_of_not_stale (eng : Engine) (fs : FS) (root now filename : String)
    (manifest : Manifest)
    (h : needs_update FORCE_REBUILD (splitextBase filename)
      (computeSnapshot fs root now filename) manifest = false) :
    process_model eng fs root now filename manifest = .ok ⟨.Skipped, manifest, []⟩ := by
  unfold process_model
  rw [if_neg (by simp [h])]

/-- A target that completed with a Failed result fails identically on
any later run over the same filesystem and engine in which it is again
judged stale: same result, untouched manifest, same attachment log. -/
theorem pm_failed_stable (eng : Engine) (fs : FS) (root now now' filename : String)
    (m m' : Manifest) (pr : ProcOut)
    (h : process_model eng fs root now filename m = .ok pr)
    (hf : pr.result = .Failed)
    (hnu : needs_update FORCE_REBUILD (splitextBase filename)
      (computeSnapshot fs root now' filename) m' = true) :
    process_model eng fs root now' filename m' = .ok ⟨.Failed, m', pr.attachLog⟩ := by
  unfold process_model at h ⊢
  rw [if_pos hnu]
  by_cases hnu0 : needs_update FORCE_REBUILD (splitextBase filename)
      (computeSnapshot fs root now filename) m
  · rw [if_pos hnu0] at h
    cases hc : eng.cleanExc filename with
    | some e => rw [hc] at h; simp at h
    | none =>
        cases hi : eng.importExc filename with
        | some e =>
            rw [hc, hi] at h
            cases h
            rfl
        | none =>
            cases harm : eng.hasArmature filename with
            | false =>
                rw [hc, hi, harm] at h
                simp only [Bool.false_eq_true, if_false] at h
                cases h
                rfl
            | true =>
                rw [hc, hi, harm] at h
                simp only [if_true] at h
                cases hs : eng.setupExc filename with
                | some e => rw [hs] at h; simp at h
                | none =>
                    rw [hs] at h
                    by_cases hrepo : fs.pathExists (REPO_RAW_ASSETS_DIR root)
                    · rw [if_pos hrepo] at h
                      cases hx : eng.exportExc filename with
                      | some e => rw [hx] at h; simp at h
                      | none =>
                          rw [hx] at h
                          cases h
                          cases hf
                    · rw [if_neg hrepo] at h
                      cases h
                      rw [if_neg hrepo]
                      rfl
  · rw [if_neg hnu0] at h
    cases h
    cases hf

theorem resolveAnims_keys_sublist (fs : FS) (root gender : String)
    (l : List (String × String)) :
    ((resolveAnims fs root gender l).map Prod.fst).Sublist (l.map Prod.fst) := by
  induction l with
  | nil => simp [resolveAnims]
  | cons hd tl ih =>
      obtain ⟨t, base⟩ := hd
      unfold resolveAnims
      cases find_animation_file fs root base gender with
      | some p =>
          simp only [List.map_cons]
          exact ih.cons₂ t
      | none =>
          simp only [List.map_cons]
          exact ih.cons t

/-- The slot names of any snapshot are distinct (they come from the
fixed table, whose slot names are distinct). -/
theorem snapshot_keys_nodup (fs : FS) (root now filename : String) :
    ((computeSnapshot fs root now filename).animations.map Prod.fst).Nodup := by
  have h : (ANIMATION_TARGETS.map Prod.fst).Nodup := by decide
  exact h.sublist (resolveAnims_keys_sublist fs root _ ANIMATION_TARGETS)

/-- A snapshot stored unchanged as the manifest entry (up to the fields
the evaluator reads) is judged not stale, provided its slot names are
distinct. -/
theorem needs_update_eq_false_self (name : String) (s t : Snapshot) (m : Manifest)
    (hm : mfind m name = some t) (h1 : s.source_mtime = t.source_mtime)
    (h2 : s.config = t.config) (h3 : s.animations = t.animations)
    (hnd : (t.animations.map Prod.fst).Nodup) :
    needs_update false name s m = false := by
  apply needs_update_eq_false name s t m hm h1 h2
  intro p hp
  rw [h3] at hp
  refine ⟨p.2, ?_, rfl⟩
  exact mfind_eq_of_nodup_mem t.animations p.1 p.2 hnd (by
    obtain ⟨p1, p2⟩ := p
    exact hp)

/-- A second pass of the batch loop over an unchanged filesystem, seeded
with any manifest that agrees with the first pass's final manifest on
every model name of the batch, completes without touching the manifest,
builds nothing, skips every target that was Built or Skipped in the
first pass, and fails exactly the targets the first pass failed —
provided the batch's model names are pairwise distinct. -/
theorem rf_second_run (eng : Engine) (fs : FS) (root now1 now2 : String)
    (files : List String) :
    ∀ (a mf b : Manifest) (rs : List BuildResult),
    (files.map splitextBase).Nodup →
    runFiles eng fs root now1 files a = .ok (mf, rs) →
    (∀ g ∈ files, mfind b (splitextBase g) = mfind mf (splitextBase g)) →
    ∃ rs2, runFiles eng fs root now2 files b = .ok (b, rs2) ∧
      rs2.length = rs.length ∧ BuildResult.Built ∉ rs2 ∧
      ∀ p ∈ rs.zip rs2,
        (p.1 ≠ .Failed → p.2 = .Skipped) ∧ (p.1 = .Failed → p.2 = .Failed) := by
  induction files with
  | nil =>
      intro a mf b rs hnd h hb
      unfold runFiles at h
      cases h
      exact ⟨[], rfl, rfl, by simp, by simp⟩
  | cons f rest ih =>
      intro a mf b rs hnd h hb
      simp only [List.map_cons, List.nodup_cons] at hnd
      unfold runFiles at h
      cases hp : process_model eng fs root now1 f a with
      | error e => rw [hp] at h; simp at h
      | ok pr =>
          rw [hp] at h
          dsimp only at h
          cases hr : runFiles eng fs root now1 rest pr.manifest with
          | error e => rw [hr] at h; simp at h
          | ok q =>
              obtain ⟨m2, rs2h⟩ := q
              rw [hr] at h
              dsimp only at h
              cases h
              have hkey : mfind mf (splitextBase f) = mfind pr.manifest (splitextBase f) :=
                rf_preserves_other_keys eng fs root now1 rest pr.manifest mf rs2h
                  (splitextBase f) hr hnd.1
              have hbf : mfind b (splitextBase f) = mfind pr.manifest (splitextBase f) := by
                rw [hb f (by simp), hkey]
              have hb_rest : ∀ g ∈ rest, mfind b (splitextBase g) = mfind mf (splitextBase g) :=
                fun g hg => hb g (by simp [hg])
              obtain ⟨rs2, hrun2, hlen, hnb, hzip⟩ :=
                ih pr.manifest mf b rs2h hnd.2 hr hb_rest
              have hsnap_mtime : (computeSnapshot fs root now2 f).source_mtime =
                  (computeSnapshot fs root now1 f).source_mtime := rfl
              have hsnap_config : (computeSnapshot fs root now2 f).config =
                  (computeSnapshot fs root now1 f).config := rfl
              have hsnap_anims : (computeSnapshot fs root now2 f).animations =
                  (computeSnapshot fs root now1 f).animations := rfl
              rcases pm_cases eng fs root now1 f a pr hp with
                ⟨hres, hman, hnu⟩ | ⟨hres, hman, hnu⟩ | ⟨hres, hman, hnu⟩
              · -- first pass skipped: second pass skips again
                have hnu2 : needs_update FORCE_REBUILD (splitextBase f)
                    (computeSnapshot fs root now2 f) b = false := by
                  rw [needs_update_congr_state FORCE_REBUILD (splitextBase f)
                    (computeSnapshot fs root now2 f) (computeSnapshot fs root now1 f) b
                    hsnap_mtime hsnap_config hsnap_anims]
                  rw [needs_update_congr_manifest FORCE_REBUILD (splitextBase f)
                    (computeSnapshot fs root now1 f) b a (by rw [hbf, hman])]
                  exact hnu
                have hhead := pm_of_not_stale eng fs root now2 f b hnu2
                refine ⟨.Skipped :: rs2, ?_, by simp [hlen], by simp [hnb], ?_⟩
                · unfold runFiles
                  rw [hhead]
                  dsimp only
                  rw [hrun2]
                · intro p hpmem
                  rw [List.zip_cons_cons, List.mem_cons] at hpmem
                  rcases hpmem with he | he
                  · subst he
                    exact ⟨fun _ => rfl, fun hfail => absurd (hres ▸ hfail) (by simp)⟩
                  · exact hzip p he
              · -- first pass failed: second pass fails identically
                have hnu2 : needs_update FORCE_REBUILD (splitextBase f)
                    (computeSnapshot fs root now2 f) b = true := by
                  rw [needs_update_congr_state FORCE_REBUILD (splitextBase f)
                    (computeSnapshot fs root now2 f) (computeSnapshot fs root now1 f) b
                    hsnap_mtime hsnap_config hsnap_anims]
                  rw [needs_update_congr_manifest FORCE_REBUILD (splitextBase f)
                    (computeSnapshot fs root now1 f) b a (by rw [hbf, hman])]
                  exact hnu
                have hhead := pm_failed_stable eng fs root now1 now2 f a b pr hp hres hnu2
                refine ⟨.Failed :: rs2, ?_, by simp [hlen], by simp [hnb], ?_⟩
                · unfold runFiles
                  rw [hhead]
                  dsimp only
                  rw [hrun2]
                · intro p hpmem
                  rw [List.zip_cons_cons, List.mem_cons] at hpmem
                  rcases hpmem with he | he
                  · subst he
                    exact ⟨fun hne => absurd hres hne, fun _ => rfl⟩
                  · exact hzip p he
              · -- first pass built: the committed entry makes the second pass skip
                have hm' : mfind b (splitextBase f) =
                    some (computeSnapshot fs root now1 f) := by
                  rw [hbf, hman, mfind_minsert_self]
                have hnu2 : needs_update FORCE_REBUILD (splitextBase f)
                    (computeSnapshot fs root now2 f) b = false :=
                  needs_update_eq_false_self (splitextBase f)
                    (computeSnapshot fs root now2 f) (computeSnapshot fs root now1 f) b
                    hm' hsnap_mtime hsnap_config hsnap_anims
                    (snapshot_keys_nodup fs root now1 f)
                have hhead := pm_of_not_stale eng fs root now2 f b hnu2
                refine ⟨.Skipped :: rs2, ?_, by simp [hlen], by simp [hnb], ?_⟩
                · unfold runFiles
                  rw [hhead]
                  dsimp only
                  rw [hrun2]
                · intro p hpmem
                  rw [List.zip_cons_cons, List.mem_cons] at hpmem
                  rcases hpmem with he | he
                  · subst he
                    exact ⟨fun _ => rfl, fun hfail => absurd (hres ▸ hfail) (by simp)⟩
                  · exact hzip p he

theorem any_built_iff (rs : List BuildResult) :
    (rs.any fun r => r = BuildResult.Built) = true ↔ BuildResult.Built ∈ rs := by
  rw [List.any_eq_true]
  constructor
  · rintro ⟨x, hx, he⟩
    simp only [decide_eq_true_eq] at he
    exact he ▸ hx
  · intro hx
    exact ⟨.Built, hx, by simp⟩

/-- C9 amended: the batch is idempotent provided the discovered source
files have pairwise distinct model names (stems).  After a completed
batch run, a second run over the unchanged filesystem — loading the
manifest the first run left on disk (saved when some target built,
otherwise the original file) — completes, builds zero targets, never
writes the manifest, and reports Skipped for every target that was Built
or Skipped in the first run.  Without the distinct-stem proviso the
property fails (see the counterexample). -/
theorem claim_C9_idempotent_distinct_stems (eng : Engine) (fs : FS)
    (root now1 now2 : String) (m0 : Manifest) (out1 : BatchOut)
    (hnd : ((listFiles fs root).map splitextBase).Nodup)
    (h1 : runBatch eng fs root now1 m0 = .ok out1) :
    ∃ out2, runBatch eng fs root now2 (if out1.saved then out1.manifest else m0) =
        .ok out2 ∧
      out2.saved = false ∧ BuildResult.Built ∉ out2.results ∧
      out2.results.length = out1.results.length ∧
      ∀ p ∈ out1.results.zip out2.results, p.1 ≠ .Failed → p.2 = .Skipped := by
  unfold runBatch at h1
  by_cases hsd : fs.pathExists (SOURCE_DIR root)
  · rw [if_pos hsd] at h1
    dsimp only at h1
    by_cases hemp : (listFiles fs root).isEmpty
    · rw [if_pos hemp] at h1
      cases h1
      refine ⟨⟨m0, [], false, 0⟩, ?_, rfl, by simp, rfl, by simp⟩
      unfold runBatch
      rw [if_pos hsd]
      dsimp only
      rw [if_pos hemp]
      rfl
    · rw [if_neg hemp] at h1
      cases hr : runFiles eng fs root now1 (listFiles fs root) m0 with
      | error e => rw [hr] at h1; simp at h1
      | ok q =>
          obtain ⟨m, rs⟩ := q
          rw [hr] at h1
          dsimp only at h1
          cases hc : eng.finalCleanExc with
          | some e => rw [hc] at h1; simp at h1
          | none =>
              rw [hc] at h1
              dsimp only at h1
              cases h1
              dsimp only
              have hb : ∀ g ∈ listFiles fs root,
                  mfind (if (rs.any fun r => r = BuildResult.Built) = true then m else m0)
                      (splitextBase g) =
                    mfind m (splitextBase g) := by
                by_cases hbuilt : (rs.any fun r => r = BuildResult.Built) = true
                · rw [if_pos hbuilt]
                  intro g _
                  rfl
                · rw [if_neg hbuilt]
                  have hnbr : BuildResult.Built ∉ rs :=
                    fun hx => hbuilt ((any_built_iff rs).mpr hx)
                  rw [rf_no_built_manifest_unchanged eng fs root now1
                    (listFiles fs root) m0 m rs hr hnbr]
                  intro g _
                  rfl
              obtain ⟨rs2, hrun2, hlen, hnb, hzip⟩ :=
                rf_second_run eng fs root now1 now2 (listFiles fs root) m0 m
                  (if (rs.any fun r => r = BuildResult.Built) = true then m else m0)
                  rs hnd hr hb
              have hupd2 : (rs2.any fun r => r = BuildResult.Built) = false := by
                cases hx : rs2.any fun r => r = BuildResult.Built with
                | true => exact absurd ((any_built_iff rs2).mp hx) hnb
                | false => rfl
              refine ⟨⟨(if (rs.any fun r => r = BuildResult.Built) = true then m else m0),
                rs2, false, 0⟩, ?_, rfl, hnb, by simp [hlen], ?_⟩
              · unfold runBatch
                rw [if_pos hsd]
                dsimp only
                rw [if_neg hemp]
                rw [hrun2]
                dsimp only
                rw [hc]
                dsimp only
                simp [hupd2]
              · intro p hp
                exact (hzip p hp).1
  · rw [if_neg hsd] at h1
    cases h1
    refine ⟨⟨m0, [], false, 0⟩, ?_, rfl, by simp, rfl, by simp⟩
    unfold runBatch
    rw [if_neg hsd]
    rfl

/-- C9 counterexample: with two source files sharing the stem `x`
(`x.fbx`, mtime 1, and `x.glb`, mtime 2) the claim fails for the
always-succeeding engine: both runs build both targets, because the two
files fight over the single manifest key `x` — the second run is not
all-Skipped although the filesystem never changed. -/
theorem claim_C9_counterexample :
    runBatch eng0 fs0 "r" "t1" [] =
        .ok ⟨[("x", computeSnapshot fs0 "r" "t1" "x.glb")], [.Built, .Built], true, 1⟩ ∧
      runBatch eng0 fs0 "r" "t2" [("x", computeSnapshot fs0 "r" "t1" "x.glb")] =
        .ok ⟨[("x", computeSnapshot fs0 "r" "t2" "x.glb")], [.Built, .Built], true, 1⟩ := by
  constructor
  · rfl
  · rfl

/-- First-run outcome of the mixed `fsC2`/`engC2` batch, used by the C9
witness. -/
def outC2 : BatchOut :=
  ⟨[("b", computeSnapshot fsC2 "r" "t" "b.fbx")], [.Failed, .Built], true, 1⟩

/-- Witness for the amended C9: the distinct-stem batch `a.fbx`/`b.fbx`
reruns with zero builds; the target Built in run one is Skipped in run
two. -/
theorem claim_C9_witness :
    ∃ out2, runBatch engC2 fsC2 "r" "t2"
        (if outC2.saved then outC2.manifest else []) = .ok out2 ∧
      out2.saved = false ∧ BuildResult.Built ∉ out2.results ∧
      out2.results.length = outC2.results.length ∧
      ∀ p ∈ outC2.results.zip out2.results, p.1 ≠ .Failed → p.2 = .Skipped :=
  claim_C9_idempotent_distinct_stems engC2 fsC2 "r" "t" "t2" [] outC2
    (by decide) (by rfl)
